import Mathlib

/-!
Verification development for the docstring-generation service.

The Python source is shallowly embedded: Python `str` values become lists of
characters (`Str`), Python dynamic values become the inductive `PyVal`,
raising code returns `Except` with the exception message as payload, and the
opaque standard-library parser `ast.parse` is abstracted as a boolean
predicate parameter threaded through the definitions that consult it.
-/

/-- Python strings, embedded as lists of characters. -/
abbrev Str := List Char

/-- Coerce a Lean string literal into the embedding. -/
def strL (s : String) : Str := s.data

/-- Characters stripped by Python `str.strip` / `lstrip` / `rstrip`
(ASCII whitespace; the source only ever manipulates ASCII text). -/
def pyIsSpace (c : Char) : Bool :=
  c = ' ' || c = '\t' || c = '\n' || c = '\r' || c = Char.ofNat 11 || c = Char.ofNat 12

/-- Python `str.lstrip()`. -/
def pyLstrip (s : Str) : Str := s.dropWhile pyIsSpace

/-- Python `str.rstrip()`. -/
def pyRstrip (s : Str) : Str := (s.reverse.dropWhile pyIsSpace).reverse

/-- Python `str.strip()`. -/
def pyStripStr (s : Str) : Str := pyRstrip (pyLstrip s)

/-- Python `pat == s[:len(pat)]`, i.e. `s.startswith(pat)`. -/
def strStartsWith : Str → Str → Bool
  | [], _ => true
  | _ :: _, [] => false
  | p :: ps, c :: cs => p = c && strStartsWith ps cs

/-- Python `s.endswith(pat)`. -/
def strEndsWith (pat s : Str) : Bool := strStartsWith pat.reverse s.reverse

/-- Python `pat in s` (substring containment). -/
def strContains (pat : Str) : Str → Bool
  | [] => strStartsWith pat []
  | c :: cs => strStartsWith pat (c :: cs) || strContains pat cs

/-- Python `s.count(pat)` (non-overlapping, left to right): after a match the
scan resumes past the matched text.  The extra `Nat` argument is fuel equal to
the length of the scanned string, which makes the recursion structural; since
every step consumes at least one character the fuel never runs out. -/
def strCountAux (pat : Str) : Str → Nat → Nat
  | _, 0 => 0
  | s, fuel + 1 =>
    match s with
    | [] => 0
    | c :: cs =>
      if strStartsWith pat (c :: cs) then
        1 + strCountAux pat (cs.drop (pat.length - 1)) fuel
      else
        strCountAux pat cs fuel

/-- Python `s.count(pat)` for a non-empty pattern. -/
def strCount (pat s : Str) : Nat := strCountAux pat s s.length

/-- Python `s.split('\n')`: `"".split('\n') == ['']`, separators are not kept. -/
def splitN : Str → List Str
  | [] => [[]]
  | '\n' :: rest => [] :: splitN rest
  | c :: rest =>
    match splitN rest with
    | [] => [[c]]
    | l :: ls => (c :: l) :: ls

/-- Python `s.splitlines()`: splits at `\r\n`, `\r` and `\n`, and a trailing
terminator does not produce a trailing empty line (`"".splitlines() == []`). -/
def splitlinesPy : Str → List Str
  | [] => []
  | '\r' :: '\n' :: rest => [] :: splitlinesPy rest
  | '\r' :: rest => [] :: splitlinesPy rest
  | '\n' :: rest => [] :: splitlinesPy rest
  | c :: rest =>
    match splitlinesPy rest with
    | [] => [[c]]
    | l :: ls => (c :: l) :: ls

/-- Python `'\n'.join(lines)`. -/
def joinLines : List Str → Str
  | [] => []
  | [l] => l
  | l :: ls => l ++ '\n' :: joinLines ls

/-- `' ' * n`. -/
def spaces (n : Nat) : Str := List.replicate n ' '

/-- Embedded Python values, as far as the agent module inspects them:
plain strings, lists, dicts with string keys, objects exposing a `content`
attribute (the provider's message type), and arbitrary other objects
abstracted by their `str()` rendering. -/
inductive PyVal where
  | str (s : Str)
  | list (items : List PyVal)
  | dict (kvs : List (Str × PyVal))
  | obj (content : PyVal)
  | other (text : Str)

mutual
/-- A structural size measure on embedded values, used as recursion fuel. -/
def pySize : PyVal → Nat
  | .str _ => 1
  | .list xs => 1 + pySizeList xs
  | .dict kvs => 1 + pySizeKVs kvs
  | .obj c => 1 + pySize c
  | .other _ => 1

/-- Size of a list of embedded values. -/
def pySizeList : List PyVal → Nat
  | [] => 0
  | v :: vs => 1 + pySize v + pySizeList vs

/-- Size of a list of key/value pairs of embedded values. -/
def pySizeKVs : List (Str × PyVal) → Nat
  | [] => 0
  | (_, v) :: kvs => 1 + pySize v + pySizeKVs kvs
end

/-- Python `d[k]` / `k in d` on a dict, as association-list lookup. -/
def lookupKey (k : Str) : List (Str × PyVal) → Option PyVal
  | [] => none
  | (k1, v) :: rest => if k1 = k then some v else lookupKey k rest

/-- A single-quote character, written via its code point. -/
def squote : Char := Char.ofNat 39

mutual
/-- Model of Python `repr()`: container renderings recurse into elements. -/
def pyRepr : PyVal → Str
  | .str s => squote :: s ++ [squote]
  | .list xs => '[' :: pyReprItems xs ++ [']']
  | .dict kvs => strL "\x7b" ++ pyReprPairs kvs ++ strL "\x7d"
  | .other t => t
  | .obj c => strL "<message content=" ++ pyRepr c ++ strL ">"

/-- Comma-separated `repr` of list elements. -/
def pyReprItems : List PyVal → Str
  | [] => []
  | [v] => pyRepr v
  | v :: vs => pyRepr v ++ strL ", " ++ pyReprItems vs

/-- Comma-separated `repr` of dict key/value pairs. -/
def pyReprPairs : List (Str × PyVal) → Str
  | [] => []
  | [(k, v)] => squote :: k ++ [squote] ++ strL ": " ++ pyRepr v
  | (k, v) :: kvs => squote :: k ++ [squote] ++ strL ": " ++ pyRepr v ++ strL ", " ++ pyReprPairs kvs
end

/-- Model of Python `str()`: the string itself for strings, `repr` otherwise. -/
def pyStr : PyVal → Str
  | .str s => s
  | v => pyRepr v

/-- `response.content if hasattr(response, 'content') else response`. -/
def unwrapContent : PyVal → PyVal
  | .obj c => c
  | v => v

/-- The dict key `'text'`. -/
def keyText : Str := strL "text"

/-- The dict key `'content'`. -/
def keyContent : Str := strL "content"

/-- The per-item selection inside the list branch of the extractor:
`item.get('text', item.get('content', str(item)))` for dicts, the item
itself for strings, `str(item)` otherwise. -/
def getItemText : PyVal → PyVal
  | .dict kvs =>
    match lookupKey keyText kvs with
    | some v => v
    | none =>
      match lookupKey keyContent kvs with
      | some v => v
      | none => .str (pyStr (.dict kvs))
  | .str s => .str s
  | v => .str (pyStr v)

/-- Is the value a Python `str`? -/
def isStrVal : PyVal → Bool
  | .str _ => true
  | _ => false

/-- The TypeError message raised by `''.join` on a non-string item. -/
def joinErrMsg : Str := strL "sequence item: expected str instance"

/-- Python `''.join(texts)`: concatenates when every item is a string,
raises TypeError otherwise. -/
def joinStrs : List PyVal → Except Str Str
  | [] => .ok []
  | .str s :: rest => (joinStrs rest).map (fun t => s ++ t)
  | _ :: _ => .error joinErrMsg

/-- Recursive core of `extract_text_from_response`.  The `Nat` argument is
fuel making the recursion structural; callers pass `pySize v + 1`, and the
recursion strictly decreases `pySize`, so the fuel never reaches `0` (the
`0` branch is unreachable).  The result is `.error` when the Python code
would raise, and `.ok` with the returned value (which the Python code does
not force to be a string) otherwise. -/
def extract_go : Nat → PyVal → Except Str PyVal
  | 0, v => .ok (.str (pyStr v))
  | fuel + 1, v =>
    match v with
    | .str s => .ok (.str s)
    | .list items => (joinStrs (items.map getItemText)).map PyVal.str
    | .dict kvs =>
      match lookupKey keyText kvs with
      | some w => .ok w
      | none =>
        match lookupKey keyContent kvs with
        | some w => extract_go fuel (unwrapContent w)
        | none => .ok (.str (pyStr (.dict kvs)))
    | w => .ok (.str (pyStr w))

/-- `extract_text_from_response(response)`: unwrap a `content` attribute if
present, then dispatch on the shape of the content, recursing through nested
`'content'` dict fields. -/
def extract_text_from_response (response : PyVal) : Except Str PyVal :=
  extract_go (pySize (unwrapContent response) + 1) (unwrapContent response)

/-- The triple-quote docstring delimiter. -/
def tq : Str := strL "\"\"\""

/-- The docstring section keywords checked by the indentation fixer. -/
def sectionKeywords : List Str :=
  [strL "Args:", strL "Returns:", strL "Yields:", strL "Raises:"]

/-- `stripped.startswith(('Args:', 'Returns:', 'Yields:', 'Raises:'))`. -/
def startsWithSection (s : Str) : Bool :=
  sectionKeywords.any (fun k => strStartsWith k s)

/-- `len(line) - len(line.lstrip())`: the width of the leading whitespace. -/
def lineIndent (line : Str) : Nat := line.length - (pyLstrip line).length

/-- One iteration of the `fix_docstring_indentation` loop: from the current
`in_docstring` flag and recorded `docstring_indent`, produce the emitted
line together with the updated flag and indent. -/
def fixLine (in_docstring : Bool) (docstring_indent : Nat) (line : Str) :
    Str × Bool × Nat :=
  if strContains tq line && !in_docstring then
    (line, true, lineIndent line)
  else if in_docstring then
    let stripped := pyLstrip line
    let out :=
      if startsWithSection stripped then
        spaces (docstring_indent + 4) ++ stripped
      else if !stripped.isEmpty && !strStartsWith tq stripped then
        if lineIndent line ≤ docstring_indent + 4 then
          spaces (docstring_indent + 8) ++ stripped
        else line
      else line
    if strContains tq line && strEndsWith tq (pyStripStr line) &&
        !strStartsWith tq (pyStripStr line) then
      (out, false, 0)
    else
      (out, true, docstring_indent)
  else
    (line, false, docstring_indent)

/-- The line-by-line loop of `fix_docstring_indentation`. -/
def fixLines (in_docstring : Bool) (docstring_indent : Nat) : List Str → List Str
  | [] => []
  | line :: rest =>
    let step := fixLine in_docstring docstring_indent line
    step.1 :: fixLines step.2.1 step.2.2 rest

/-- `fix_docstring_indentation(code)`: a single forward pass over the
`'\n'`-separated lines. -/
def fix_docstring_indentation (code : Str) : Str :=
  joinLines (fixLines false 0 (splitN code))

/-- Index of the first occurrence of `pat` in `s`, if any. -/
def firstOcc (pat : Str) : Str → Option Nat
  | [] => if strStartsWith pat [] then some 0 else none
  | c :: cs =>
    if strStartsWith pat (c :: cs) then some 0 else (firstOcc pat cs).map (· + 1)

/-- Model of `re.search(r'"""(.*?)"""', s, re.DOTALL)`, returning the full
matched text (`group(0)`): the leftmost opening delimiter that has a closing
delimiter after it, with the shortest (lazy) body. -/
def docSearch : Str → Option Str
  | [] => none
  | c :: cs =>
    if strStartsWith tq (c :: cs) then
      match firstOcc tq (List.drop 3 (c :: cs)) with
      | some k => some (tq ++ (List.drop 3 (c :: cs)).take k ++ tq)
      | none => docSearch cs
    else docSearch cs

/-- Is the character a `\w` word character (the source text is ASCII)? -/
def isWordChar (c : Char) : Bool := c.isAlphanum || c = '_'

/-- Attempt to match the pattern `def \w+\([^)]*\):` at the start of `s`,
returning the matched text.  The quantifiers are deterministic here: `\w+`
cannot trade characters with `\(`, nor `[^)]*` with `\)`. -/
def sigMatchAt (s : Str) : Option Str :=
  if strStartsWith (strL "def ") s then
    let rest := List.drop 4 s
    let w := rest.takeWhile isWordChar
    if w.isEmpty then none
    else
      match rest.dropWhile isWordChar with
      | '(' :: r2 =>
        match r2.dropWhile (fun c => !(c = ')')) with
        | ')' :: ':' :: _ =>
          some (strL "def " ++ w ++ '(' :: r2.takeWhile (fun c => !(c = ')')) ++ strL "):")
        | _ => none
      | _ => none
  else none

/-- Model of `re.search(r'def \w+\([^)]*\):', s)`: the leftmost match. -/
def sigSearch : Str → Option Str
  | [] => none
  | c :: cs =>
    match sigMatchAt (c :: cs) with
    | some m => some m
    | none => sigSearch cs

/-- Model of `re.search(r':\s*(.*)', s, re.DOTALL)` followed by
`.group(1).strip()`: everything after the first colon, stripped; `none`
when the text has no colon (greedy `\s*` takes the leading whitespace and
`(.*)` with DOTALL takes the whole remaining text). -/
def bodyAfterColon : Str → Option Str
  | [] => none
  | ':' :: rest => some (pyStripStr rest)
  | _ :: rest => bodyAfterColon rest

/-- The sentinel marker comment flagging unfixable syntax errors. -/
def markerS : Str := strL "# TODO: Fix syntax error"

/-- The marker-filtering and whitespace-trimming first stage of
`clean_output`: split into lines, drop every marker line when the original
code is valid, rejoin, strip.  The opaque `ast.parse`-based check
`is_valid_python` is passed as a predicate parameter. -/
def marker_cleaned (is_valid_python : Str → Bool) (output original_code : Str) : Str :=
  let lines := splitlinesPy output
  let lines :=
    if is_valid_python original_code then
      lines.filter (fun line => !strContains markerS line)
    else lines
  pyStripStr (joinLines lines)

/-- `clean_output(output, original_code)`: marker filtering followed by the
best-effort body-recovery safety net. -/
def clean_output (is_valid_python : Str → Bool) (output original_code : Str) : Str :=
  let cleaned := marker_cleaned is_valid_python output original_code
  if strCount (strL "def ") cleaned == 1 && !strContains (strL "return") cleaned then
    match docSearch cleaned with
    | some docstring =>
      match sigSearch cleaned with
      | some sig =>
        match bodyAfterColon original_code with
        | some body => sig ++ strL "\n    " ++ docstring ++ strL "\n    " ++ body
        | none => sig ++ strL "\n    " ++ docstring ++ '\n' :: original_code
      | none => cleaned
    | none => cleaned
  else cleaned

/-- `.strip()` invoked on a dynamic value: succeeds on strings, raises
AttributeError otherwise. -/
def pyStripVal : PyVal → Except Str Str
  | .str s => .ok (pyStripStr s)
  | _ => .error (strL "object has no attribute strip")

/-- The opening markdown fence with a language tag (9 characters). -/
def fencePy : Str := strL "```python"

/-- The bare markdown fence (3 characters). -/
def fenceTick : Str := strL "```"

/-- The body of the `try:` block of `generate_docstrings`: invoke the
provider, extract the text, strip accidental fences, clean and re-indent.
Any step may raise, which surfaces as `.error` with the message. -/
def gen_body (is_valid_python : Str → Bool) (invoke : Str → Except Str PyVal)
    (source_code : Str) : Except Str Str := do
  let response ← invoke source_code
  let extracted ← extract_text_from_response response
  let raw0 ← pyStripVal extracted
  let raw1 := if strStartsWith fencePy raw0 then raw0.drop 9 else raw0
  let raw2 := if strStartsWith fenceTick raw1 then raw1.drop 3 else raw1
  let raw3 := if strEndsWith fenceTick raw2 then raw2.take (raw2.length - 3) else raw2
  let raw4 := clean_output is_valid_python raw3 source_code
  let raw5 := fix_docstring_indentation raw4
  pure (pyStripStr raw5)

/-- The fixed empty-input error string. -/
def errEmpty : Str := strL "# Error: The provided source code is empty."

/-- The prefix of the caught-exception error string. -/
def errGenMark : Str := strL "# Error generating docstrings: "

/-- `generate_docstrings(source_code)`: the empty-input guard, then the
`try`/`except` wrapping of the provider call and post-processing. -/
def generate_docstrings (is_valid_python : Str → Bool)
    (invoke : Str → Except Str PyVal) (source_code : Str) : Str :=
  if source_code.isEmpty || (pyStripStr source_code).isEmpty then errEmpty
  else
    match gen_body is_valid_python invoke source_code with
    | .ok s => s
    | .error e => errGenMark ++ e

/-- The response record of the HTTP layer. -/
structure CodeResponse where
  documented_code : Str
  message : Str
deriving DecidableEq

/-- The `/api/generate` handler: reject oversized payloads with an HTTP
error, otherwise generate and classify the status message by an `'Error:'`
substring test on the result. -/
def api_generate (is_valid_python : Str → Bool) (invoke : Str → Except Str PyVal)
    (source_code : Str) : Except Str CodeResponse :=
  if 100000 < source_code.length then
    .error (strL "Payload too large. Please process smaller files.")
  else
    let documented_code := generate_docstrings is_valid_python invoke source_code
    if strContains (strL "Error:") documented_code then
      .ok ⟨documented_code, strL "Failed or empty input."⟩
    else
      .ok ⟨documented_code, strL "Docstrings generated successfully!"⟩

/-- Fueled safety predicate mirroring the recursion of `extract_go`: every
field the extractor would select along its inspected path is a string.
The `0` fuel case is conservatively `false`; `safeVal` supplies enough fuel. -/
def safe_go : Nat → PyVal → Bool
  | 0, _ => false
  | fuel + 1, v =>
    match v with
    | .str _ => true
    | .list items => items.all (fun it => isStrVal (getItemText it))
    | .dict kvs =>
      match lookupKey keyText kvs with
      | some w => isStrVal w
      | none =>
        match lookupKey keyContent kvs with
        | some w => safe_go fuel (unwrapContent w)
        | none => true
    | _ => true

/-- Responses on which the extractor provably returns a string. -/
def safeVal (v : PyVal) : Bool :=
  safe_go (pySize (unwrapContent v) + 1) (unwrapContent v)

/-- Modelled from the spec: the expected text contributed by one sequence
element — the element itself for a string, the mapping's `'text'` (else
`'content'`) string field for a mapping, the generic string conversion
otherwise. -/
def specItemText : PyVal → Str
  | .str s => s
  | .dict kvs =>
    match lookupKey keyText kvs with
    | some (.str s) => s
    | some w => pyStr w
    | none =>
      match lookupKey keyContent kvs with
      | some (.str s) => s
      | some w => pyStr w
      | none => pyStr (.dict kvs)
  | v => pyStr v

/-! ## Substring machinery -/

theorem strStartsWith_iff (p s : Str) : strStartsWith p s = true ↔ p <+: s := by
  induction p generalizing s with
  | nil => simp [strStartsWith, List.nil_prefix]
  | cons a ps ih =>
    cases s with
    | nil => simp [strStartsWith]
    | cons c cs => simp [strStartsWith, ih, List.cons_prefix_cons]

theorem strContains_iff (pat s : Str) : strContains pat s = true ↔ pat <:+: s := by
  induction s with
  | nil => cases pat <;> simp [strContains, strStartsWith]
  | cons c cs ih => simp [strContains, strStartsWith_iff, ih, List.infix_cons_iff]

theorem strEndsWith_iff (pat s : Str) : strEndsWith pat s = true ↔ pat <:+ s := by
  rw [strEndsWith, strStartsWith_iff, List.reverse_prefix]

theorem pyLstrip_suffix (s : Str) : pyLstrip s <:+ s := List.dropWhile_suffix _

theorem pyRstrip_front (s : Str) : pyRstrip s <+: s := by
  rw [← List.reverse_suffix]
  simpa [pyRstrip] using List.dropWhile_suffix (l := s.reverse) pyIsSpace

theorem pyStrip_part (s : Str) : pyStripStr s <:+: s :=
  (pyRstrip_front (pyLstrip s)).isInfix.trans (pyLstrip_suffix s).isInfix

theorem strContains_tq_of_strip_ends (line : Str)
    (h : strEndsWith tq (pyStripStr line) = true) : strContains tq line = true := by
  rw [strContains_iff]
  exact ((strEndsWith_iff _ _).mp h).isInfix.trans (pyStrip_part line)

theorem strContains_left (pat rest : Str) : strContains pat (pat ++ rest) = true := by
  rw [strContains_iff]; exact (List.prefix_append pat rest).isInfix

theorem strContains_right (pre pat : Str) : strContains pat (pre ++ pat) = true := by
  rw [strContains_iff]; exact (List.suffix_append pre pat).isInfix

/-! ## C7, C8, C10: request handler -/

/-- C7: for every input that is the empty string or consists only of
whitespace, `generate_docstrings` returns the fixed empty-input error string
immediately; the result is this constant for every provider `invoke`
whatsoever, so no external call can influence (or be required for) it. -/
theorem generate_docstrings_empty (is_valid_python : Str → Bool)
    (invoke : Str → Except Str PyVal) (source_code : Str)
    (h : (source_code.isEmpty || (pyStripStr source_code).isEmpty) = true) :
    generate_docstrings is_valid_python invoke source_code = errEmpty := by
  simp [generate_docstrings, h]

/-- Witness for `generate_docstrings_empty`: a whitespace-only input together
with a provider that always raises still yields the fixed error string. -/
theorem generate_docstrings_empty_witness :
    generate_docstrings (fun _ => true) (fun _ => .error (strL "boom")) (strL "   ") =
      errEmpty :=
  generate_docstrings_empty _ _ _ (by decide)

/-- C8: for every non-empty input, an exception anywhere inside the `try:`
body (provider call or post-processing, all modelled by `gen_body`) is
caught and turned into the returned error string, which carries the fixed
error marker and the exception message; nothing propagates. -/
theorem generate_docstrings_catches (is_valid_python : Str → Bool)
    (invoke : Str → Except Str PyVal) (source_code e : Str)
    (hne : (source_code.isEmpty || (pyStripStr source_code).isEmpty) = false)
    (herr : gen_body is_valid_python invoke source_code = .error e) :
    generate_docstrings is_valid_python invoke source_code = errGenMark ++ e ∧
    strContains errGenMark (generate_docstrings is_valid_python invoke source_code) = true ∧
    strContains e (generate_docstrings is_valid_python invoke source_code) = true := by
  have hmain : generate_docstrings is_valid_python invoke source_code = errGenMark ++ e := by
    simp [generate_docstrings, hne, herr]
  refine ⟨hmain, ?_, ?_⟩ <;> rw [hmain]
  · exact strContains_left _ _
  · exact strContains_right _ _

/-- Witness for `generate_docstrings_catches`: a raising provider on a
non-empty input. -/
theorem generate_docstrings_catches_witness :
    generate_docstrings (fun _ => true) (fun _ => .error (strL "boom")) (strL "x = 1") =
      errGenMark ++ strL "boom" ∧
    strContains errGenMark
      (generate_docstrings (fun _ => true) (fun _ => .error (strL "boom")) (strL "x = 1")) = true ∧
    strContains (strL "boom")
      (generate_docstrings (fun _ => true) (fun _ => .error (strL "boom")) (strL "x = 1")) = true :=
  generate_docstrings_catches _ _ _ _ (by decide) rfl

/-- C10: within the payload size limit, the handler's status message is
decided solely by an `'Error:'` substring test on the generated result:
the failure message exactly when the substring occurs anywhere in it, the
success message otherwise. -/
theorem api_generate_message (is_valid_python : Str → Bool)
    (invoke : Str → Except Str PyVal) (source_code : Str)
    (h : ¬ 100000 < source_code.length) :
    api_generate is_valid_python invoke source_code =
      .ok ⟨generate_docstrings is_valid_python invoke source_code,
        if strContains (strL "Error:") (generate_docstrings is_valid_python invoke source_code)
        then strL "Failed or empty input."
        else strL "Docstrings generated successfully!"⟩ := by
  simp only [api_generate, if_neg h]
  cases hc : strContains (strL "Error:") (generate_docstrings is_valid_python invoke source_code) <;>
    simp [hc]

/-- Witness for `api_generate_message`: the provider succeeds and returns
code that merely contains `'Error:'` inside a comment, yet the handler
reports the failure message. -/
theorem api_generate_message_witness :
    api_generate (fun _ => true) (fun _ => .ok (.obj (.str (strL "# Error: demo"))))
      (strL "x = 1") =
      .ok ⟨strL "# Error: demo", strL "Failed or empty input."⟩ := by
  have h := api_generate_message (fun _ => true)
    (fun _ => .ok (.obj (.str (strL "# Error: demo")))) (strL "x = 1") (by decide)
  rw [h]; rfl

/-! ## C6, C1: clean_output -/

theorem clean_output_of_guard_false (is_valid_python : Str → Bool) (output original_code : Str)
    (h : (strCount (strL "def ") (marker_cleaned is_valid_python output original_code) == 1 &&
      !strContains (strL "return") (marker_cleaned is_valid_python output original_code)) = false) :
    clean_output is_valid_python output original_code =
      marker_cleaned is_valid_python output original_code := by
  simp [clean_output, h]

theorem clean_output_of_doc_none (is_valid_python : Str → Bool) (output original_code : Str)
    (h : docSearch (marker_cleaned is_valid_python output original_code) = none) :
    clean_output is_valid_python output original_code =
      marker_cleaned is_valid_python output original_code := by
  simp [clean_output, h]

theorem clean_output_of_sig_none (is_valid_python : Str → Bool) (output original_code : Str)
    (h : sigSearch (marker_cleaned is_valid_python output original_code) = none) :
    clean_output is_valid_python output original_code =
      marker_cleaned is_valid_python output original_code := by
  simp only [clean_output, h]
  cases hd : docSearch (marker_cleaned is_valid_python output original_code) <;> simp [hd]

/-- C6: the body-recovery step runs only when the marker-cleaned text has
exactly one `'def '` and no `'return'`, and it is a no-op — the
marker-cleaned, stripped text is returned unchanged — whenever the
docstring pattern or the signature pattern does not match. -/
theorem clean_output_recovery_noop (is_valid_python : Str → Bool)
    (output original_code : Str) :
    ((strCount (strL "def ") (marker_cleaned is_valid_python output original_code) == 1 &&
        !strContains (strL "return") (marker_cleaned is_valid_python output original_code)) =
          false →
      clean_output is_valid_python output original_code =
        marker_cleaned is_valid_python output original_code) ∧
    (docSearch (marker_cleaned is_valid_python output original_code) = none →
      clean_output is_valid_python output original_code =
        marker_cleaned is_valid_python output original_code) ∧
    (sigSearch (marker_cleaned is_valid_python output original_code) = none →
      clean_output is_valid_python output original_code =
        marker_cleaned is_valid_python output original_code) :=
  ⟨clean_output_of_guard_false _ _ _, clean_output_of_doc_none _ _ _,
    clean_output_of_sig_none _ _ _⟩

/-- Witness for `clean_output_recovery_noop`: text with a `return` keeps the
recovery step inert. -/
theorem clean_output_recovery_noop_witness :
    (strCount (strL "def ")
        (marker_cleaned (fun _ => true) (strL "def f(x):\n    return x") (strL "x = 1")) == 1 &&
      !strContains (strL "return")
        (marker_cleaned (fun _ => true) (strL "def f(x):\n    return x") (strL "x = 1"))) =
          false ∧
    clean_output (fun _ => true) (strL "def f(x):\n    return x") (strL "x = 1") =
      marker_cleaned (fun _ => true) (strL "def f(x):\n    return x") (strL "x = 1") :=
  ⟨by decide, (clean_output_recovery_noop _ _ _).1 (by decide)⟩

/-- C1: when the body-recovery guard is inert, `clean_output` removes every
line containing the sentinel marker exactly when the original code is
valid: with one marker line `m` among the lines of `output`, the result is
the stripped join of the other lines when the original is valid, and of all
lines (marker included) when it is invalid. -/
theorem clean_output_marker_iff (is_valid_python : Str → Bool) (output original_code : Str)
    (pre post : List Str) (m : Str)
    (hsplit : splitlinesPy output = pre ++ m :: post)
    (hm : strContains markerS m = true)
    (hpre : ∀ l ∈ pre, strContains markerS l = false)
    (hpost : ∀ l ∈ post, strContains markerS l = false)
    (hguard : (strCount (strL "def ")
          (pyStripStr (joinLines
            (if is_valid_python original_code then pre ++ post else pre ++ m :: post))) == 1 &&
        !strContains (strL "return")
          (pyStripStr (joinLines
            (if is_valid_python original_code then pre ++ post else pre ++ m :: post)))) =
          false) :
    clean_output is_valid_python output original_code =
      pyStripStr (joinLines
        (if is_valid_python original_code then pre ++ post else pre ++ m :: post)) := by
  have hmc : marker_cleaned is_valid_python output original_code =
      pyStripStr (joinLines
        (if is_valid_python original_code then pre ++ post else pre ++ m :: post)) := by
    unfold marker_cleaned
    rw [hsplit]
    cases hv : is_valid_python original_code with
    | false => simp
    | true =>
      simp only [if_pos, if_true]
      have h1 : List.filter (fun line => !strContains markerS line) pre = pre :=
        List.filter_eq_self.mpr (fun a ha => by simp [hpre a ha])
      have h2 : List.filter (fun line => !strContains markerS line) post = post :=
        List.filter_eq_self.mpr (fun a ha => by simp [hpost a ha])
      rw [List.filter_append, List.filter_cons, h1, h2]
      simp [hm]
  rw [← hmc] at hguard
  rw [clean_output_of_guard_false _ _ _ hguard, hmc]

/-- Witness for `clean_output_marker_iff`: a valid original, an output with
one marker line, and a `return` keeping the guard inert. -/
theorem clean_output_marker_iff_witness :
    clean_output (fun _ => true)
      (strL "def f(x):\n    \"\"\"D.\"\"\"\n    # TODO: Fix syntax error\n    return x")
      (strL "def f(x):\n    return x") =
      pyStripStr (joinLines
        [strL "def f(x):", strL "    \"\"\"D.\"\"\"", strL "    return x"]) :=
  clean_output_marker_iff (fun _ => true) _ _
    [strL "def f(x):", strL "    \"\"\"D.\"\"\""] [strL "    return x"]
    (strL "    # TODO: Fix syntax error")
    (by decide) (by decide) (by decide) (by decide) (by decide)

/-! ## C2, C5, C9: fix_docstring_indentation -/

/-- C2 counterexample: a line consisting solely of the closing triple-quote
delimiter (here `'    \"\"\"'` inside a block of indent 4) does NOT end the
in-docstring state, contradicting the claim that any line carrying a
closing delimiter without an opening one on the same line exits the block:
the stripped line starts with the delimiter, so the exit test rejects it. -/
theorem fix_exit_counterexample :
    ¬ ((fixLine true 4 (strL "    \"\"\"")).2.1 = false) := by decide

/-- C2 amended: inside a docstring block, the state is exited exactly on
lines whose stripped content ends with the triple-quote delimiter but does
not begin with it (so a line consisting solely of the delimiter does not
end the block). -/
theorem fix_exit_iff (docstring_indent : Nat) (line : Str) :
    (fixLine true docstring_indent line).2.1 = false ↔
      (strEndsWith tq (pyStripStr line) = true ∧
        strStartsWith tq (pyStripStr line) = false) := by
  have hc := strContains_tq_of_strip_ends line
  cases he : strEndsWith tq (pyStripStr line) <;>
    cases hs : strStartsWith tq (pyStripStr line) <;>
      simp [fixLine, he, hs, hc]

/-- C5: inside a docstring block with recorded indent `docstring_indent`,
a line whose stripped content begins with a section keyword is re-indented
to `docstring_indent + 4`; any other non-empty line not starting with the
delimiter is re-indented to `docstring_indent + 8` unless its current
indent already exceeds `docstring_indent + 4`; and on the spec's concrete
block at indent 4, `Args:` moves to indent 8 and the description line to
indent 12. -/
theorem fix_indent_rules (docstring_indent : Nat) (line : Str) :
    (startsWithSection (pyLstrip line) = true →
      (fixLine true docstring_indent line).1 =
        spaces (docstring_indent + 4) ++ pyLstrip line) ∧
    (startsWithSection (pyLstrip line) = false →
      (pyLstrip line).isEmpty = false →
      strStartsWith tq (pyLstrip line) = false →
      (fixLine true docstring_indent line).1 =
        if lineIndent line ≤ docstring_indent + 4 then
          spaces (docstring_indent + 8) ++ pyLstrip line
        else line) ∧
    fix_docstring_indentation
        (strL "def f():\n    \"\"\"D.\n    Args:\n    x: A.\n    \"\"\"") =
      strL "def f():\n    \"\"\"D.\n        Args:\n            x: A.\n    \"\"\"" := by
  refine ⟨fun h1 => ?_, fun h1 h2 h3 => ?_, by decide⟩
  · simp [fixLine, h1]
    split <;> rfl
  · simp [fixLine, h1, h2, h3]
    split <;> rfl

/-- Witness for `fix_indent_rules`: a section line and a description line,
both at indent 4 in a block of indent 4. -/
theorem fix_indent_rules_witness :
    (fixLine true 4 (strL "    Args:")).1 = spaces 8 ++ pyLstrip (strL "    Args:") ∧
    (fixLine true 4 (strL "    x: A.")).1 =
      (if lineIndent (strL "    x: A.") ≤ 8 then
        spaces 12 ++ pyLstrip (strL "    x: A.")
      else strL "    x: A.") :=
  ⟨(fix_indent_rules 4 (strL "    Args:")).1 (by decide),
    (fix_indent_rules 4 (strL "    x: A.")).2.1 (by decide) (by decide) (by decide)⟩

theorem splitN_cons_of_ne (c : Char) (rest : Str) (hc : ¬ c = '\n')
    (l : Str) (ls : List Str) (hr : splitN rest = l :: ls) :
    splitN (c :: rest) = (c :: l) :: ls := by
  rw [splitN.eq_def]
  split
  · rename_i h; cases h
  · rename_i h2; injection h2 with h2a h2b; exact absurd h2a.symm (fun hx => hc hx.symm)
  · rename_i c2 rest2 hx heq
    injection heq with heqa heqb
    subst heqa; subst heqb
    rw [hr]

theorem splitN_ne_nil (s : Str) : splitN s ≠ [] := by
  induction s using splitN.induct with
  | case1 => simp [splitN]
  | case2 rest ih => simp [splitN]
  | case3 c rest hc hr ih => exact absurd hr ih
  | case4 c rest hc l ls hr ih =>
    rw [splitN_cons_of_ne c rest (fun h => hc h) l ls hr]
    simp

theorem no_nl_mem_splitN (s : Str) : ∀ l ∈ splitN s, '\n' ∉ l := by
  induction s using splitN.induct with
  | case1 => intro l hl; simp [splitN] at hl; simp [hl]
  | case2 rest ih =>
    intro l hl
    rw [splitN] at hl
    rcases List.mem_cons.mp hl with rfl | hl
    · simp
    · exact ih l hl
  | case3 c rest hc hr ih => exact absurd hr (splitN_ne_nil rest)
  | case4 c rest hc l ls hr ih =>
    intro x hx
    rw [splitN_cons_of_ne c rest (fun h => hc h) l ls hr] at hx
    rcases List.mem_cons.mp hx with rfl | hx
    · intro hm
      rcases List.mem_cons.mp hm with h12 | h12
      · exact hc h12.symm
      · exact ih l (hr ▸ List.mem_cons_self l ls) h12
    · exact ih x (hr ▸ List.mem_cons_of_mem l hx)

theorem splitN_no_nl (l : Str) (h : '\n' ∉ l) : splitN l = [l] := by
  induction l with
  | nil => rfl
  | cons c cs ih =>
    have hc : ¬ c = '\n' := fun hx => h (hx ▸ List.mem_cons_self c cs)
    have hcs : '\n' ∉ cs := fun hx => h (List.mem_cons_of_mem _ hx)
    rw [splitN_cons_of_ne c cs hc cs [] (ih hcs)]

theorem splitN_append (l rest : Str) (h : '\n' ∉ l) :
    splitN (l ++ '\n' :: rest) = l :: splitN rest := by
  induction l with
  | nil => simp [splitN]
  | cons c cs ih =>
    have hc : ¬ c = '\n' := fun hx => h (hx ▸ List.mem_cons_self c cs)
    have hcs : '\n' ∉ cs := fun hx => h (List.mem_cons_of_mem _ hx)
    have hr := ih hcs
    rw [List.cons_append, splitN_cons_of_ne c (cs ++ '\n' :: rest) hc cs (splitN rest) hr]

theorem splitN_joinLines (ls : List Str) (hne : ls ≠ [])
    (h : ∀ l ∈ ls, '\n' ∉ l) : splitN (joinLines ls) = ls := by
  induction ls with
  | nil => exact absurd rfl hne
  | cons l rest ih =>
    cases rest with
    | nil => exact splitN_no_nl l (h l (List.mem_cons_self _ _))
    | cons l2 rest2 =>
      have hj : joinLines (l :: l2 :: rest2) = l ++ '\n' :: joinLines (l2 :: rest2) := rfl
      rw [hj, splitN_append l _ (h l (List.mem_cons_self _ _)),
        ih (List.cons_ne_nil l2 rest2) (fun y hy => h y (List.mem_cons_of_mem _ hy))]

theorem fixLine_fst_cases (b : Bool) (d : Nat) (line : Str) :
    (fixLine b d line).1 = line ∨ ∃ k, (fixLine b d line).1 = spaces k ++ pyLstrip line := by
  simp only [fixLine]
  repeat' split
  all_goals
    first
      | exact Or.inl rfl
      | exact Or.inr ⟨d + 4, rfl⟩
      | exact Or.inr ⟨d + 8, rfl⟩

theorem no_nl_fixLine (b : Bool) (d : Nat) (line : Str) (h : '\n' ∉ line) :
    '\n' ∉ (fixLine b d line).1 := by
  rcases fixLine_fst_cases b d line with he | ⟨k, he⟩ <;> rw [he]
  · exact h
  · intro hm
    rcases List.mem_append.mp hm with hm | hm
    · simp [spaces, List.mem_replicate] at hm
    · exact h ((pyLstrip_suffix line).sublist.subset hm)

theorem fixLines_length (b : Bool) (d : Nat) (ls : List Str) :
    (fixLines b d ls).length = ls.length := by
  induction ls generalizing b d with
  | nil => rfl
  | cons l rest ih => simp [fixLines, ih]

theorem no_nl_fixLines (b : Bool) (d : Nat) (ls : List Str)
    (h : ∀ l ∈ ls, '\n' ∉ l) : ∀ l ∈ fixLines b d ls, '\n' ∉ l := by
  induction ls generalizing b d with
  | nil => simp [fixLines]
  | cons l rest ih =>
    intro x hx
    rw [fixLines] at hx
    rcases List.mem_cons.mp hx with rfl | hx
    · exact no_nl_fixLine _ _ _ (h l (List.mem_cons_self _ _))
    · exact ih _ _ (fun y hy => h y (List.mem_cons_of_mem _ hy)) x hx

/-- C9: `fix_docstring_indentation` preserves the number of
newline-separated lines: it may rewrite a line's leading whitespace but
never inserts, deletes or merges lines. -/
theorem fix_docstring_indentation_line_count (code : Str) :
    (splitN (fix_docstring_indentation code)).length = (splitN code).length := by
  unfold fix_docstring_indentation
  have h1 : ∀ l ∈ splitN code, '\n' ∉ l := no_nl_mem_splitN code
  have h2 : ∀ l ∈ fixLines false 0 (splitN code), '\n' ∉ l := no_nl_fixLines _ _ _ h1
  have h3 : fixLines false 0 (splitN code) ≠ [] := by
    intro hx
    have hlen := fixLines_length false 0 (splitN code)
    rw [hx] at hlen
    exact splitN_ne_nil code (List.length_eq_zero.mp hlen.symm)
  rw [splitN_joinLines _ h3 h2, fixLines_length]

/-! ## C3, C4: the response extractor -/

theorem joinStrs_all_str (vs : List PyVal) (h : ∀ v ∈ vs, isStrVal v = true) :
    ∃ s, joinStrs vs = .ok s := by
  induction vs with
  | nil => exact ⟨[], rfl⟩
  | cons v rest ih =>
    obtain ⟨t, ht⟩ := ih (fun y hy => h y (List.mem_cons_of_mem _ hy))
    have hv := h v (List.mem_cons_self _ _)
    cases v with
    | str s => exact ⟨s ++ t, by simp [joinStrs, ht, Except.map]⟩
    | list items => simp [isStrVal] at hv
    | dict kvs => simp [isStrVal] at hv
    | obj c => simp [isStrVal] at hv
    | other t2 => simp [isStrVal] at hv

theorem extract_go_safe (fuel : Nat) (v : PyVal) (h : safe_go fuel v = true) :
    ∃ s, extract_go fuel v = .ok (.str s) := by
  induction fuel generalizing v with
  | zero => simp [safe_go] at h
  | succ n ih =>
    cases v with
    | str s => exact ⟨s, rfl⟩
    | list items =>
      simp only [safe_go, List.all_eq_true] at h
      obtain ⟨s, hs⟩ := joinStrs_all_str (items.map getItemText) (by
        intro w hw
        obtain ⟨it, hit, rfl⟩ := List.mem_map.mp hw
        exact h it hit)
      exact ⟨s, by simp [extract_go, hs, Except.map]⟩
    | dict kvs =>
      simp only [safe_go] at h
      simp only [extract_go]
      cases hT : lookupKey keyText kvs with
      | some w =>
        rw [hT] at h
        cases w with
        | str s => exact ⟨s, rfl⟩
        | list items => simp [isStrVal] at h
        | dict kvs2 => simp [isStrVal] at h
        | obj c => simp [isStrVal] at h
        | other t2 => simp [isStrVal] at h
      | none =>
        rw [hT] at h
        cases hC : lookupKey keyContent kvs with
        | some w => rw [hC] at h; exact ih (unwrapContent w) h
        | none => exact ⟨_, rfl⟩
    | obj c => exact ⟨_, rfl⟩
    | other t => exact ⟨_, rfl⟩

/-- C3 counterexample: on the response `[{'text': <non-string>}]` the
extractor reaches `''.join` with a non-string item and raises a TypeError
instead of returning a string, refuting totality over all response values. -/
theorem extract_total_counterexample :
    extract_text_from_response (.list [.dict [(strL "text", .other (strL "oops"))]]) =
      .error joinErrMsg := rfl

/-- C3 amended: the extractor returns a string without raising for every
response value in which each mapping field it selects along the way is a
string (`safeVal`); without that restriction a non-string `'text'` item
makes the final `''.join` raise. -/
theorem extract_text_total_of_safe (response : PyVal) (h : safeVal response = true) :
    ∃ s, extract_text_from_response response = .ok (.str s) :=
  extract_go_safe _ _ h

/-- Witness for `extract_text_total_of_safe`: a message object wrapping a
mixed list of a string and a `'text'` mapping. -/
theorem extract_text_total_of_safe_witness :
    safeVal (.obj (.list [.str (strL "a"), .dict [(strL "text", .str (strL "b"))]])) = true ∧
    ∃ s, extract_text_from_response
      (.obj (.list [.str (strL "a"), .dict [(strL "text", .str (strL "b"))]])) =
        .ok (.str s) :=
  ⟨by decide, extract_text_total_of_safe _ (by decide)⟩

theorem getItemText_spec (it : PyVal) (h : isStrVal (getItemText it) = true) :
    getItemText it = .str (specItemText it) := by
  cases it with
  | str s => rfl
  | list items => rfl
  | obj c => rfl
  | other t => rfl
  | dict kvs =>
    simp only [getItemText, specItemText] at h ⊢
    cases hT : lookupKey keyText kvs with
    | some w =>
      rw [hT] at h
      cases w with
      | str s => rfl
      | list items => simp [isStrVal] at h
      | dict kvs2 => simp [isStrVal] at h
      | obj c => simp [isStrVal] at h
      | other t2 => simp [isStrVal] at h
    | none =>
      rw [hT] at h
      cases hC : lookupKey keyContent kvs with
      | some w =>
        rw [hC] at h
        cases w with
        | str s => rfl
        | list items => simp [isStrVal] at h
        | dict kvs2 => simp [isStrVal] at h
        | obj c => simp [isStrVal] at h
        | other t2 => simp [isStrVal] at h
      | none => rfl

theorem joinStrs_spec (items : List PyVal)
    (h : ∀ it ∈ items, isStrVal (getItemText it) = true) :
    joinStrs (items.map getItemText) = .ok (items.map specItemText).flatten := by
  induction items with
  | nil => rfl
  | cons it rest ih =>
    have h1 := getItemText_spec it (h it (List.mem_cons_self _ _))
    have h2 := ih (fun y hy => h y (List.mem_cons_of_mem _ hy))
    simp [h1, h2, joinStrs, Except.map]

theorem lookupKey_pySize (k : Str) (kvs : List (Str × PyVal)) (w : PyVal)
    (h : lookupKey k kvs = some w) : pySize w < pySizeKVs kvs := by
  induction kvs with
  | nil => simp [lookupKey] at h
  | cons kv rest ih =>
    obtain ⟨k1, v⟩ := kv
    rw [lookupKey] at h
    by_cases hk : k1 = k
    · rw [if_pos hk] at h
      cases h
      simp only [pySizeKVs]
      omega
    · rw [if_neg hk] at h
      have := ih h
      simp only [pySizeKVs]
      omega

theorem unwrap_pySize (v : PyVal) : pySize (unwrapContent v) ≤ pySize v := by
  cases v <;> simp [unwrapContent, pySize]

theorem extract_go_fuel_irrel (f : Nat) : ∀ (g : Nat) (v : PyVal),
    pySize v < f → pySize v < g → extract_go f v = extract_go g v := by
  induction f with
  | zero => intro g v hf _; exact absurd hf (Nat.not_lt_zero _)
  | succ n ih =>
    intro g v hf hg
    cases g with
    | zero => exact absurd hg (Nat.not_lt_zero _)
    | succ m =>
      cases v with
      | str s => rfl
      | list items => rfl
      | obj c => rfl
      | other t => rfl
      | dict kvs =>
        simp only [extract_go]
        cases hT : lookupKey keyText kvs with
        | some w => rfl
        | none =>
          cases hC : lookupKey keyContent kvs with
          | some w =>
            have hw : pySize w < pySizeKVs kvs := lookupKey_pySize _ _ _ hC
            have huw : pySize (unwrapContent w) ≤ pySize w := unwrap_pySize w
            have hd : pySize (PyVal.dict kvs) = 1 + pySizeKVs kvs := rfl
            rw [hd] at hf hg
            exact ih _ _ (by omega) (by omega)
          | none => rfl

/-- C4: shape-wise correctness of the extractor — a plain string (bare or
behind a `content` attribute) is returned as is; a sequence whose items all
select string texts concatenates them in order; a mapping without `'text'`
but with `'content'` recursively unwraps that field; an unrecognized shape
falls back to the generic string conversion. -/
theorem extract_text_shapes :
    (∀ s, extract_text_from_response (.str s) = .ok (.str s)) ∧
    (∀ s, extract_text_from_response (.obj (.str s)) = .ok (.str s)) ∧
    (∀ items, (∀ it ∈ items, isStrVal (getItemText it) = true) →
      extract_text_from_response (.list items) =
        .ok (.str (items.map specItemText).flatten)) ∧
    (∀ kvs w, lookupKey keyText kvs = none → lookupKey keyContent kvs = some w →
      extract_text_from_response (.dict kvs) = extract_text_from_response w) ∧
    (∀ t, extract_text_from_response (.other t) = .ok (.str (pyStr (.other t)))) := by
  refine ⟨fun s => rfl, fun s => rfl, fun items h => ?_, fun kvs w hT hC => ?_, fun t => rfl⟩
  · show (joinStrs (items.map getItemText)).map PyVal.str = _
    rw [joinStrs_spec items h]
    rfl
  · show extract_go (pySize (PyVal.dict kvs) + 1) (PyVal.dict kvs) = _
    simp only [extract_go, hT, hC, extract_text_from_response]
    have hw : pySize w < pySizeKVs kvs := lookupKey_pySize _ _ _ hC
    have huw : pySize (unwrapContent w) ≤ pySize w := unwrap_pySize w
    have hd : pySize (PyVal.dict kvs) = 1 + pySizeKVs kvs := rfl
    exact extract_go_fuel_irrel (pySize (PyVal.dict kvs))
      (pySize (unwrapContent w) + 1) (unwrapContent w) (by omega) (by omega)

/-- Witness for `extract_text_shapes`: a mixed string/mapping sequence and a
nested-`'content'` mapping. -/
theorem extract_text_shapes_witness :
    extract_text_from_response (.list [.str (strL "a"), .dict [(strL "text", .str (strL "b"))]]) =
      .ok (.str (strL "ab")) ∧
    extract_text_from_response (.dict [(strL "content", .str (strL "hi"))]) =
      extract_text_from_response (.str (strL "hi")) := by
  constructor
  · exact extract_text_shapes.2.2.1 _ (by decide)
  · exact extract_text_shapes.2.2.2.1 _ _ rfl rfl
